import Mathlib

/-!
# Verification of the Command Bridge and Settings Store of `server.js`

This file gives a shallow embedding of the parts of `src/server.js` that the
specification's claims are about:

* `runPythonScript` — the Command Bridge: the `close` handler's extraction of a
  structured JSON result from accumulated worker stdout, the non-zero-exit
  policy, and the spawn-failure policy (lines 21–80 of the source);
* the admin-settings read and upsert handlers (lines 98–155);
* the client-chat handler (lines 213–252).

JavaScript strings are modelled as Lean `String`s manipulated through explicit
`List Char` functions that mirror the JavaScript methods used by the source
(`split('\n')`, `trim()`, `startsWith`, `toLowerCase()`, `includes`).
`JSON.parse` and `JSON.stringify` are modelled by an executable recursive
descent parser and printer over a `Json` value type.  JSON numbers are
modelled exactly as a decimal mantissa/exponent pair `m / 10^k`, which is the
value written by the worker (e.g. `0.45` is `45 / 10^2`); this coincides with
the JavaScript double semantics on every number appearing in the claims.
-/

set_option maxRecDepth 8192

namespace Srv

mutual

/-- JSON values, as produced by the model of `JSON.parse`.  A number is the
exact rational `m / 10^k` described by its decimal literal.  Object fields
keep source order and possible duplicate keys; field access (`getField`)
returns the last binding, matching JavaScript's last-key-wins semantics. -/
inductive Json where
  | null : Json
  | bool (b : Bool) : Json
  | num (m : Int) (k : Nat) : Json
  | str (s : String) : Json
  | arr (elems : JsonList) : Json
  | obj (fields : JsonObj) : Json

/-- A list of JSON values (array elements). -/
inductive JsonList where
  | nil : JsonList
  | cons (hd : Json) (tl : JsonList) : JsonList

/-- A list of JSON object fields, in source order. -/
inductive JsonObj where
  | nil : JsonObj
  | cons (key : String) (val : Json) (tl : JsonObj) : JsonObj

end

mutual

def Json.beq : Json → Json → Bool
  | .null, .null => true
  | .bool a, .bool b => a = b
  | .num m k, .num m' k' => m = m' && k = k'
  | .str a, .str b => a = b
  | .arr a, .arr b => JsonList.beq a b
  | .obj a, .obj b => JsonObj.beq a b
  | _, _ => false

def JsonList.beq : JsonList → JsonList → Bool
  | .nil, .nil => true
  | .cons a as, .cons b bs => Json.beq a b && JsonList.beq as bs
  | _, _ => false

def JsonObj.beq : JsonObj → JsonObj → Bool
  | .nil, .nil => true
  | .cons k v tl, .cons k' v' tl' => k = k' && Json.beq v v' && JsonObj.beq tl tl'
  | _, _ => false

end

mutual

theorem jsonBeqIff : ∀ a b : Json, Json.beq a b = true ↔ a = b
  | .null, b => by cases b <;> simp [Json.beq]
  | .bool x, b => by cases b <;> simp [Json.beq]
  | .num m k, b => by cases b <;> simp [Json.beq]
  | .str s, b => by cases b <;> simp [Json.beq]
  | .arr xs, b => by cases b <;> simp [Json.beq, jsonListBeqIff xs]
  | .obj fs, b => by cases b <;> simp [Json.beq, jsonObjBeqIff fs]

theorem jsonListBeqIff : ∀ a b : JsonList, JsonList.beq a b = true ↔ a = b
  | .nil, b => by cases b <;> simp [JsonList.beq]
  | .cons x xs, b => by
      cases b <;> simp [JsonList.beq, jsonBeqIff x, jsonListBeqIff xs]

theorem jsonObjBeqIff : ∀ a b : JsonObj, JsonObj.beq a b = true ↔ a = b
  | .nil, b => by cases b <;> simp [JsonObj.beq]
  | .cons k v tl, b => by
      cases b <;> simp [JsonObj.beq, jsonBeqIff v, jsonObjBeqIff tl, and_assoc]

end

instance : DecidableEq Json := fun a b =>
  decidable_of_iff (Json.beq a b = true) (jsonBeqIff a b)

instance : DecidableEq JsonList := fun a b =>
  decidable_of_iff (JsonList.beq a b = true) (jsonListBeqIff a b)

instance : DecidableEq JsonObj := fun a b =>
  decidable_of_iff (JsonObj.beq a b = true) (jsonObjBeqIff a b)

/-! ## Character and string primitives

These model the JavaScript string methods used by `server.js`, working on
`List Char` so that their behaviour is fully transparent to proofs. -/

/-- JSON whitespace (also the ASCII fragment of JavaScript's `trim`). -/
def jsonWs (c : Char) : Bool :=
  c = ' ' || c = '\t' || c = '\n' || c = '\r'

/-- Drop leading whitespace. -/
def skipWs (cs : List Char) : List Char := cs.dropWhile jsonWs

/-- Drop trailing whitespace. -/
def trimEnd : List Char → List Char
  | [] => []
  | c :: cs =>
    let r := trimEnd cs
    if r.isEmpty && jsonWs c then [] else c :: r

/-- Drop leading and trailing whitespace. -/
def trimChars (cs : List Char) : List Char := trimEnd (cs.dropWhile jsonWs)

/-- Model of JavaScript `String.prototype.trim` (ASCII whitespace). -/
def jsTrim (s : String) : String := String.mk (trimChars s.data)

/-- `chLeadsWith pre cs` is true when `pre` is an initial segment of `cs`. -/
def chLeadsWith : List Char → List Char → Bool
  | [], _ => true
  | _ :: _, [] => false
  | c :: cs, d :: ds => c = d && chLeadsWith cs ds

/-- Model of JavaScript `String.prototype.startsWith`. -/
def jsStartsWith (s pre : String) : Bool := chLeadsWith pre.data s.data

/-- Model of JavaScript `split('\n')`: always returns at least one piece. -/
def splitLinesChars : List Char → List (List Char)
  | [] => [[]]
  | c :: cs =>
    match splitLinesChars cs with
    | [] => [[]]
    | l :: ls => if c = '\n' then [] :: l :: ls else (c :: l) :: ls

/-- The lines of a string, as in `dataString.split('\n')`. -/
def splitLines (s : String) : List String := (splitLinesChars s.data).map String.mk

/-- Model of JavaScript `String.prototype.toLowerCase` (ASCII letters). -/
def lowerStr (s : String) : String := String.mk (s.data.map Char.toLower)

/-- `includesChars sub cs`: `sub` occurs contiguously inside `cs`. -/
def includesChars (sub : List Char) : List Char → Bool
  | [] => chLeadsWith sub []
  | c :: cs => chLeadsWith sub (c :: cs) || includesChars sub cs

/-- Model of JavaScript `String.prototype.includes`. -/
def includesStr (s sub : String) : Bool := includesChars sub.data s.data

/-! ## Model of `JSON.parse`

An executable recursive-descent parser for the JSON grammar, used by the
source at lines 57 and 61 (`JSON.parse(jsonLine)` and
`JSON.parse(dataString.trim())`) and at line 112 (settings read-back). -/

/-- Numeric value of a decimal digit. -/
def digVal (c : Char) : Nat := c.toNat - '0'.toNat

/-- Numeric value of a hexadecimal digit (for `\uXXXX` escapes). -/
def hexVal (c : Char) : Option Nat :=
  let n := c.toNat
  if 48 ≤ n ∧ n ≤ 57 then some (n - 48)
  else if 97 ≤ n ∧ n ≤ 102 then some (n - 87)
  else if 65 ≤ n ∧ n ≤ 70 then some (n - 55)
  else none

/-- The natural number denoted by a list of decimal digits. -/
def digitsToNat (ds : List Char) : Nat :=
  ds.foldl (fun a c => a * 10 + digVal c) 0

/-- Parse the body of a JSON string literal (the opening quote already
consumed), returning the decoded characters and the input after the closing
quote. -/
def parseStringBody : List Char → Except String (List Char × List Char)
  | [] => .error "unterminated string in JSON"
  | c :: rest =>
    if c = '"' then .ok ([], rest)
    else if c = '\\' then
      match rest with
      | [] => .error "unterminated escape in JSON"
      | 'u' :: h1 :: h2 :: h3 :: h4 :: rest2 =>
        (match hexVal h1, hexVal h2, hexVal h3, hexVal h4 with
        | some a, some b, some c2, some d => do
          let (tail, r) ← parseStringBody rest2
          pure (Char.ofNat (((a * 16 + b) * 16 + c2) * 16 + d) :: tail, r)
        | _, _, _, _ => .error "bad unicode escape in JSON")
      | e :: rest2 => do
        let d ←
          if e = '"' then Except.ok '"'
          else if e = '\\' then Except.ok '\\'
          else if e = '/' then Except.ok '/'
          else if e = 'b' then Except.ok (Char.ofNat 8)
          else if e = 'f' then Except.ok (Char.ofNat 12)
          else if e = 'n' then Except.ok '\n'
          else if e = 'r' then Except.ok '\r'
          else if e = 't' then Except.ok '\t'
          else Except.error "bad escape in JSON"
        let (tail, r) ← parseStringBody rest2
        pure (d :: tail, r)
    else if c.toNat < 32 then .error "control character in JSON string"
    else do
      let (tail, r) ← parseStringBody rest
      pure (c :: tail, r)

/-- Parse the optional-sign-and-digits tail of a JSON exponent part. -/
def parseExpTail (r : List Char) : Except String (Int × List Char) :=
  let (eneg, r1) := match r with
    | '+' :: t => (false, t)
    | '-' :: t => (true, t)
    | _ => (false, r)
  let ed := r1.takeWhile Char.isDigit
  if ed.isEmpty then .error "expected digits in JSON exponent"
  else .ok (if eneg then -(digitsToNat ed : Int) else (digitsToNat ed : Int),
            r1.dropWhile Char.isDigit)

/-- Parse the optional fraction part (`.` and digits) of a JSON number. -/
def parseFracPart : List Char → Except String (List Char × List Char)
  | '.' :: r =>
    let fd := r.takeWhile Char.isDigit
    if fd.isEmpty then .error "expected digits after decimal point in JSON"
    else .ok (fd, r.dropWhile Char.isDigit)
  | cs2 => .ok ([], cs2)

/-- Parse the optional exponent part (`e`/`E`, sign, digits) of a JSON
number. -/
def parseExpPart : List Char → Except String (Int × List Char)
  | 'e' :: r => parseExpTail r
  | 'E' :: r => parseExpTail r
  | cs3 => .ok (0, cs3)

/-- Parse the digits of a JSON number after the optional leading minus sign
has been consumed (`neg` records whether it was present). -/
def parseNumberBody (neg : Bool) (cs1 : List Char) : Except String (Json × List Char) :=
  let intDigits := cs1.takeWhile Char.isDigit
  let cs2 := cs1.dropWhile Char.isDigit
  if intDigits.isEmpty then .error "expected digits in JSON number"
  else if 1 < intDigits.length ∧ intDigits.headD ' ' = '0' then
    .error "leading zero in JSON number"
  else
    match parseFracPart cs2 with
    | .error e => .error e
    | .ok (fracDigits, cs3) =>
      match parseExpPart cs3 with
      | .error e => .error e
      | .ok (e, rest) =>
        let mag : Nat := digitsToNat (intDigits ++ fracDigits)
        let m0 : Int := if neg then -(mag : Int) else (mag : Int)
        if 0 ≤ e then .ok (.num (m0 * (10 : Int) ^ e.toNat) fracDigits.length, rest)
        else .ok (.num m0 (fracDigits.length + e.natAbs), rest)

/-- Parse the JSON number grammar at the head of the input.  The value is the
exact mantissa/decimal-exponent pair denoted by the literal. -/
def parseNumber (cs : List Char) : Except String (Json × List Char) :=
  match cs with
  | '-' :: r => parseNumberBody true r
  | _ => parseNumberBody false cs

mutual

/-- Parse one JSON value at the head of the input (leading whitespace
allowed).  `fuel` bounds the recursion; `parseJson` supplies more fuel than
any input can consume. -/
def parseVal : Nat → List Char → Except String (Json × List Char)
  | 0, _ => .error "JSON nesting too deep"
  | fuel + 1, cs =>
    match skipWs cs with
    | [] => .error "unexpected end of JSON input"
    | '{' :: rest =>
      (match skipWs rest with
      | '}' :: rest2 => .ok (.obj .nil, rest2)
      | _ => do
        let (fs, r) ← parseFields fuel rest
        pure (.obj fs, r))
    | '[' :: rest =>
      (match skipWs rest with
      | ']' :: rest2 => .ok (.arr .nil, rest2)
      | _ => do
        let (xs, r) ← parseElems fuel rest
        pure (.arr xs, r))
    | '"' :: rest => do
      let (content, r) ← parseStringBody rest
      pure (.str (String.mk content), r)
    | 't' :: rest =>
      if chLeadsWith ['r', 'u', 'e'] rest then .ok (.bool true, rest.drop 3)
      else .error "unexpected token in JSON"
    | 'f' :: rest =>
      if chLeadsWith ['a', 'l', 's', 'e'] rest then .ok (.bool false, rest.drop 4)
      else .error "unexpected token in JSON"
    | 'n' :: rest =>
      if chLeadsWith ['u', 'l', 'l'] rest then .ok (.null, rest.drop 3)
      else .error "unexpected token in JSON"
    | c :: rest =>
      if c = '-' || c.isDigit then parseNumber (c :: rest)
      else .error "unexpected token in JSON"

/-- Parse a nonempty comma-separated list of array elements and the closing
bracket. -/
def parseElems : Nat → List Char → Except String (JsonList × List Char)
  | 0, _ => .error "JSON nesting too deep"
  | fuel + 1, cs => do
    let (v, r) ← parseVal fuel cs
    match skipWs r with
    | ',' :: r2 => do
      let (vs, r3) ← parseElems fuel r2
      pure (.cons v vs, r3)
    | ']' :: r2 => pure (.cons v .nil, r2)
    | _ => .error "expected comma or closing bracket in JSON array"

/-- Parse a nonempty comma-separated list of object members and the closing
brace. -/
def parseFields : Nat → List Char → Except String (JsonObj × List Char)
  | 0, _ => .error "JSON nesting too deep"
  | fuel + 1, cs =>
    match skipWs cs with
    | '"' :: rest => do
      let (key, r) ← parseStringBody rest
      match skipWs r with
      | ':' :: r2 => do
        let (v, r3) ← parseVal fuel r2
        match skipWs r3 with
        | ',' :: r4 => do
          let (fs, r5) ← parseFields fuel r4
          pure (.cons (String.mk key) v fs, r5)
        | '}' :: r4 => pure (.cons (String.mk key) v .nil, r4)
        | _ => .error "expected comma or closing brace in JSON object"
      | _ => .error "expected colon in JSON object"
    | _ => .error "expected string key in JSON object"

end

instance {ε α : Type} [DecidableEq ε] [DecidableEq α] : DecidableEq (Except ε α) :=
  fun a b =>
    match a, b with
    | .ok x, .ok y => if h : x = y then .isTrue (by rw [h]) else .isFalse (by simp [h])
    | .error x, .error y =>
        if h : x = y then .isTrue (by rw [h]) else .isFalse (by simp [h])
    | .ok _, .error _ => .isFalse (by simp)
    | .error _, .ok _ => .isFalse (by simp)

/-- Model of `JSON.parse`: parse the whole string as one JSON value
(surrounding whitespace allowed), or fail with a message. -/
def parseJson (s : String) : Except String Json := do
  let (v, rest) ← parseVal (s.data.length + 1) s.data
  match skipWs rest with
  | [] => pure v
  | _ => .error "unexpected trailing characters after JSON value"

/-! ## Model of `JSON.stringify` and JavaScript `String(value)` -/

/-- The decimal digit character for `n < 10`. -/
def digitChar (n : Nat) : Char := Char.ofNat ('0'.toNat + n)

/-- The lowercase hexadecimal digit character for `n < 16`. -/
def hexDigitChar (n : Nat) : Char :=
  if n < 10 then digitChar n else Char.ofNat ('a'.toNat + (n - 10))

/-- Fuel-indexed digit expansion; the fuel only bounds the recursion. -/
def natToDigitsAux : Nat → Nat → List Char
  | 0, _ => []
  | fuel + 1, n =>
    if n < 10 then [digitChar n]
    else natToDigitsAux fuel (n / 10) ++ [digitChar (n % 10)]

/-- The decimal digits of a natural number, most significant first. -/
def natToDigits (n : Nat) : List Char := natToDigitsAux (n + 1) n

theorem natToDigitsAux_congr : ∀ f g n, n < f → n < g →
    natToDigitsAux f n = natToDigitsAux g n := by
  intro f
  induction f with
  | zero => omega
  | succ f ih =>
    intro g n hf hg
    cases g with
    | zero => omega
    | succ g =>
      by_cases h10 : n < 10
      · simp [natToDigitsAux, h10]
      · have hn : 0 < n := by omega
        have hdiv : n / 10 < n := Nat.div_lt_self hn (by omega)
        simp only [natToDigitsAux, if_neg h10]
        rw [ih g (n / 10) (by omega) (by omega)]

/-- The defining recurrence of `natToDigits`. -/
theorem natToDigits_eq (n : Nat) :
    natToDigits n =
      if n < 10 then [digitChar n]
      else natToDigits (n / 10) ++ [digitChar (n % 10)] := by
  by_cases h10 : n < 10
  · simp [natToDigits, natToDigitsAux, h10]
  · have hdiv : n / 10 < n := Nat.div_lt_self (by omega) (by omega)
    rw [if_neg h10]
    have h1 : natToDigits n = natToDigitsAux n (n / 10) ++ [digitChar (n % 10)] := by
      show natToDigitsAux (n + 1) n = _
      simp only [natToDigitsAux, if_neg h10]
    rw [h1, natToDigitsAux_congr n (n / 10 + 1) (n / 10) (by omega) (by omega)]
    rfl

/-- The unsigned decimal rendering of `n / 10^k`: the digits of `n` with a
decimal point `k` places from the right (when `k > 0`). -/
def unsignedNumChars (n k : Nat) : List Char :=
  if k = 0 then natToDigits n
  else
    let fd := natToDigits (n % 10 ^ k)
    natToDigits (n / 10 ^ k) ++ '.' :: (List.replicate (k - fd.length) '0' ++ fd)

/-- The decimal rendering of the exact number `m / 10^k`.  On the numbers
handled by the claims this agrees with JavaScript's `String(number)`. -/
def numChars (m : Int) (k : Nat) : List Char :=
  (if m < 0 then ['-'] else []) ++ unsignedNumChars m.natAbs k

/-- String form of `numChars`. -/
def numToString (m : Int) (k : Nat) : String := String.mk (numChars m k)

/-- JSON escaping of one string character, as in `JSON.stringify`. -/
def escapeChar (c : Char) : List Char :=
  if c = '"' then ['\\', '"']
  else if c = '\\' then ['\\', '\\']
  else if c = '\n' then ['\\', 'n']
  else if c = '\r' then ['\\', 'r']
  else if c = '\t' then ['\\', 't']
  else if c.toNat = 8 then ['\\', 'b']
  else if c.toNat = 12 then ['\\', 'f']
  else if c.toNat < 32 then
    ['\\', 'u', '0', '0', hexDigitChar (c.toNat / 16), hexDigitChar (c.toNat % 16)]
  else [c]

/-- JSON escaping of a whole string body. -/
def escapeList : List Char → List Char
  | [] => []
  | c :: cs => escapeChar c ++ escapeList cs

mutual

/-- Model of `JSON.stringify` (no indentation), emitting characters. -/
def Json.stringifyChars : Json → List Char
  | .null => 'n' :: 'u' :: 'l' :: ['l']
  | .bool true => 't' :: 'r' :: 'u' :: ['e']
  | .bool false => 'f' :: 'a' :: 'l' :: 's' :: ['e']
  | .num m k => numChars m k
  | .str s => '"' :: (escapeList s.data ++ ['"'])
  | .arr xs => '[' :: (JsonList.stringifyChars xs ++ [']'])
  | .obj fs => '{' :: (JsonObj.stringifyChars fs ++ ['}'])

/-- Comma-separated stringified array elements. -/
def JsonList.stringifyChars : JsonList → List Char
  | .nil => []
  | .cons v .nil => v.stringifyChars
  | .cons v (.cons w vs) =>
      v.stringifyChars ++ ',' :: JsonList.stringifyChars (.cons w vs)

/-- Comma-separated stringified object members. -/
def JsonObj.stringifyChars : JsonObj → List Char
  | .nil => []
  | .cons k v .nil => '"' :: (escapeList k.data ++ '"' :: ':' :: v.stringifyChars)
  | .cons k v (.cons k2 v2 fs) =>
      ('"' :: (escapeList k.data ++ '"' :: ':' :: v.stringifyChars)) ++
        ',' :: JsonObj.stringifyChars (.cons k2 v2 fs)

end

/-- Model of `JSON.stringify` (no indentation). -/
def Json.stringify (v : Json) : String := String.mk v.stringifyChars

/-! ## The Command Bridge: `runPythonScript` (source lines 21–80) -/

/-- The typed outcome of one invocation: `resolved` carries the value passed
to `resolve`; the other constructors are the three rejection sites of the
source, carrying exactly the data interpolated into the rejection `Error`
message (see `BridgeResult.errMessage`). -/
inductive BridgeResult where
  | resolved (v : Json)
  | unparsableOutput (parseMsg : String)
  | nonZeroExit (code : Int) (stderr : String)
  | spawnFailure (sysErrMsg : String)
deriving DecidableEq

/-- The message of the `Error` the promise is rejected with; `none` when the
promise resolves. -/
def BridgeResult.errMessage : BridgeResult → Option String
  | .resolved _ => none
  | .unparsableOutput m => some ("Failed to parse Python output: " ++ m)
  | .nonZeroExit c e =>
      some ("Python script failed with code " ++ numToString c 0 ++ ": " ++ e)
  | .spawnFailure m => some ("Failed to start Python process: " ++ m)

/-- True exactly when the promise resolves. -/
def BridgeResult.isResolved : BridgeResult → Bool
  | .resolved _ => true
  | _ => false

/-- `line.trim().startsWith('{')`: the per-line test of source line 50. -/
def isBraceLine (l : String) : Bool := jsStartsWith (jsTrim l) "\x7b"

/-- The loop of source lines 48–54: `jsonLine` is the trimmed first matching
line, or `''` when no line matches. -/
def scanJsonLine : List String → String
  | [] => ""
  | l :: ls => if isBraceLine l then jsTrim l else scanJsonLine ls

/-- `jsonLine` as computed from the accumulated stdout. -/
def firstJsonLine (dataString : String) : String :=
  scanJsonLine (splitLines dataString)

/-- A `console.error(label, detail)` entry. -/
abbrev LogEntry := String × String

/-- The `close` handler of source lines 43–73, as a function of the exit code
and the accumulated stdout/stderr: the settled result together with the
`console.error` entries emitted on the way. -/
def onClose (code : Int) (dataString errorString : String) :
    BridgeResult × List LogEntry :=
  if code = 0 then
    let jsonLine := firstJsonLine dataString
    if jsonLine ≠ "" then
      match parseJson jsonLine with
      | .ok v => (.resolved v, [])
      | .error m =>
          (.unparsableOutput m, [("JSON Parse Error:", m), ("Raw output:", dataString)])
    else
      match parseJson (jsTrim dataString) with
      | .ok v => (.resolved v, [])
      | .error m =>
          (.unparsableOutput m, [("JSON Parse Error:", m), ("Raw output:", dataString)])
  else (.nonZeroExit code errorString, [("Python script error:", errorString)])

/-- The terminal process event of one invocation: the `close` event with exit
code and accumulated streams, or the `error` event (the process could not be
started) with the system error text. -/
inductive ProcEvent where
  | closed (code : Int) (stdout stderr : String)
  | spawnError (sysErrMsg : String)

/-- The settled outcome of `runPythonScript` as a function of the terminal
process event, with the emitted console-error entries (source lines 43–78). -/
def invokeOutcome : ProcEvent → BridgeResult × List LogEntry
  | .closed code out err => onClose code out err
  | .spawnError m => (.spawnFailure m, [("Failed to start Python process:", m)])

/-! ## The Settings Store (source lines 98–155) -/

/-- The text stored for one settings value by the upsert handler (source
lines 134–136): `JSON.stringify` for arrays and objects — and for `null`,
whose JavaScript `typeof` is `'object'` — otherwise `String(value)`. -/
def writeSetting : Json → String
  | .arr xs => Json.stringify (.arr xs)
  | .obj fs => Json.stringify (.obj fs)
  | .null => Json.stringify .null
  | .str s => s
  | .num m k => numToString m k
  | .bool b => if b then "true" else "false"

/-- The value read back for one stored settings row by the get-all handler
(source lines 108–119): parsed as JSON when the stored text starts with `[`
or `{`, falling back to the raw string when the parse throws; otherwise the
raw string. -/
def readSetting (stored : String) : Json :=
  if jsStartsWith stored "[" || jsStartsWith stored "\x7b" then
    match parseJson stored with
    | .ok v => v
    | .error _ => .str stored
  else .str stored

/-! ## The client chat handler (source lines 213–252) -/

/-- The last binding of `key`, matching JavaScript property semantics for
objects built by `JSON.parse` (a later duplicate key overwrites). -/
def JsonObj.findField : JsonObj → String → Option Json
  | .nil, _ => none
  | .cons k v tl, key =>
    match JsonObj.findField tl key with
    | some r => some r
    | none => if k = key then some v else none

/-- JavaScript property access `base.key`, with `none` playing `undefined`:
access on `undefined` or `null` throws a `TypeError` (`.error`); access on
any other non-object value yields `undefined`. -/
def jsGet : Option Json → String → Except Unit (Option Json)
  | none, _ => .error ()
  | some .null, _ => .error ()
  | some (.obj fs), key => .ok (fs.findField key)
  | some _, _ => .ok none

/-- JavaScript truthiness of a possibly-`undefined` value. -/
def truthy : Option Json → Bool
  | none => false
  | some .null => false
  | some (.bool b) => b
  | some (.num m _) => m != 0
  | some (.str s) => s != ""
  | some (.arr _) => true
  | some (.obj _) => true

mutual

/-- JavaScript `String(value)` conversion, as performed by template-literal
interpolation. -/
def jsDisplay : Json → String
  | .null => "null"
  | .bool true => "true"
  | .bool false => "false"
  | .num m k => numToString m k
  | .str s => s
  | .arr xs => jsDisplayElems xs
  | .obj _ => "[object Object]"

/-- JavaScript array-to-string: elements joined with `,`. -/
def jsDisplayElems : JsonList → String
  | .nil => ""
  | .cons v .nil => jsDisplayElem v
  | .cons v (.cons w vs) => jsDisplayElem v ++ "," ++ jsDisplayElems (.cons w vs)

/-- One array element inside a join: `null` renders empty. -/
def jsDisplayElem : Json → String
  | .null => ""
  | .bool true => "true"
  | .bool false => "false"
  | .num m k => numToString m k
  | .str s => s
  | .arr xs => jsDisplayElems xs
  | .obj _ => "[object Object]"

end

/-- Interpolation of a possibly-`undefined` value in a template literal. -/
def display : Option Json → String
  | none => "undefined"
  | some v => jsDisplay v

/-- The exact product `x * 100` computed by the handler from the
`completion_percentage` value `m / 10^k`, kept as a decimal
mantissa/exponent pair; `none` stands for `NaN` when the field is missing or
not a number.  On the numbers of the claims the exact product coincides with
the JavaScript double product. -/
def pctTimes100 : Option Json → Option (Int × Nat)
  | some (.num m k) => some (m * 100, k)
  | _ => none

/-- Model of JavaScript `Number.prototype.toFixed(1)` on the exact decimal
`m / 10^k` (ECMA-262: the multiple of `1/10` closest to the value, ties
taking the larger, that is `floor(value * 10 + 1/2)`, here as one flooring
integer division), with `none` rendering as `NaN`. -/
def toFixed1 : Option (Int × Nat) → String
  | none => "NaN"
  | some (m, k) =>
    let n : Int := Int.fdiv (2 * (m * 10) + 10 ^ k) (2 * 10 ^ k)
    let a := n.natAbs
    let sign : List Char := if n < 0 then ['-'] else []
    String.mk (sign ++ natToDigits (a / 10) ++ '.' :: [digitChar (a % 10)])

/-- A single typewriter apostrophe. -/
def apos : String := String.mk [Char.ofNat 39]

/-- The JSON body the chat endpoint responds with. -/
structure ChatReply where
  success : Bool
  response : String
  dataField : Option Json
deriving DecidableEq

/-- The reply of the outer `catch` (source lines 245–251). -/
def techReply : ChatReply :=
  ⟨false,
    "I" ++ apos ++
      "m experiencing some technical difficulties. Please try again later.",
    none⟩

/-- The body of the chat handler once `runPythonScript` has resolved with
`result` (source lines 220–244).  A `.error` is a thrown `TypeError`
(property access on `undefined`/`null`), caught by the outer `catch`. -/
def chatBody (message : String) (result : Json) : Except Unit ChatReply := do
  let succ ← jsGet (some result) "success"
  if truthy succ then
    let data ← jsGet (some result) "project_data"
    let low := lowerStr message
    if includesStr low "status" || includesStr low "current" then
      let oc ← jsGet data "overall_completes"
      let tq ← jsGet data "total_quota"
      let cp ← jsGet data "completion_percentage"
      pure ⟨true,
        "Current recruitment status: " ++ display oc ++ " out of " ++ display tq ++
          " participants completed (" ++ toFixed1 (pctTimes100 cp) ++ "% complete).",
        data⟩
    else if includesStr low "report" || includesStr low "latest" then
      let a ← jsGet (some result) "analysis"
      pure ⟨true, display a, data⟩
    else if includesStr low "progress" then
      let oc ← jsGet data "overall_completes"
      let tq ← jsGet data "total_quota"
      let cp ← jsGet data "completion_percentage"
      pure ⟨true,
        "We" ++ apos ++ "ve made good progress! Currently at " ++ display oc ++
          " completes out of " ++ display tq ++ " target, which is " ++
          toFixed1 (pctTimes100 cp) ++ "% of our goal.",
        data⟩
    else
      let a ← jsGet (some result) "analysis"
      pure ⟨true, "Here" ++ apos ++ "s the latest update: " ++ display a, data⟩
  else
    pure ⟨false,
      "I" ++ apos ++
        "m having trouble accessing the latest data right now. Please try again in a moment.",
      none⟩

/-- The full chat endpoint behaviour for one terminal process event of its
`generate_report` invocation (source lines 213–252): a rejected invocation
or a thrown `TypeError` lands in the `catch`. -/
def chatHandler (message : String) (ev : ProcEvent) : ChatReply :=
  match (invokeOutcome ev).1 with
  | .resolved result =>
    match chatBody message result with
    | .ok reply => reply
    | .error _ => techReply
  | _ => techReply

/-! ## Digit arithmetic -/

theorem digitChar_isDigit (d : Nat) (h : d < 10) : (digitChar d).isDigit = true := by
  interval_cases d <;> decide

theorem digVal_digitChar (d : Nat) (h : d < 10) : digVal (digitChar d) = d := by
  interval_cases d <;> decide

theorem digitChar_ne_zeroChar (d : Nat) (h0 : 0 < d) (h : d < 10) :
    digitChar d ≠ '0' := by
  interval_cases d <;> decide

theorem natToDigits_ne_nil (n : Nat) : natToDigits n ≠ [] := by
  rw [natToDigits_eq]
  split <;> simp

theorem natToDigits_all_digits (n : Nat) :
    ∀ c ∈ natToDigits n, c.isDigit = true := by
  induction n using Nat.strong_induction_on with
  | _ n ih =>
    rw [natToDigits_eq]
    by_cases h10 : n < 10
    · simpa [h10] using digitChar_isDigit n h10
    · rw [if_neg h10]
      intro c hc
      rcases List.mem_append.mp hc with h | h
      · exact ih (n / 10) (Nat.div_lt_self (by omega) (by omega)) c h
      · simp only [List.mem_singleton] at h
        subst h
        exact digitChar_isDigit _ (Nat.mod_lt n (by omega))

theorem natToDigits_headD_ne_zeroChar (n : Nat) (hn : 0 < n) :
    (natToDigits n).headD ' ' ≠ '0' := by
  induction n using Nat.strong_induction_on with
  | _ n ih =>
    rw [natToDigits_eq]
    by_cases h10 : n < 10
    · simpa [h10] using digitChar_ne_zeroChar n hn h10
    · rw [if_neg h10]
      have hne := natToDigits_ne_nil (n / 10)
      rcases hd : natToDigits (n / 10) with _ | ⟨c, t⟩
      · exact absurd hd hne
      · have := ih (n / 10) (Nat.div_lt_self (by omega) (by omega))
          (Nat.div_pos (by omega) (by omega))
        rw [hd] at this
        simpa using this

/-- The leading-zero rejection test of `parseNumberBody` never fires on the
digits produced by `natToDigits`. -/
theorem natToDigits_no_leading_zero (n : Nat) :
    ¬(1 < (natToDigits n).length ∧ (natToDigits n).headD ' ' = '0') := by
  rintro ⟨hlen, hhead⟩
  by_cases hn : 0 < n
  · exact natToDigits_headD_ne_zeroChar n hn hhead
  · have : n = 0 := by omega
    subst this
    have hone : (natToDigits 0).length = 1 := by decide
    omega

theorem digitsToNat_foldl (b : List Char) : ∀ init : Nat,
    b.foldl (fun a c => a * 10 + digVal c) init =
      init * 10 ^ b.length + b.foldl (fun a c => a * 10 + digVal c) 0 := by
  induction b with
  | nil => intro init; simp
  | cons c b ih =>
    intro init
    rw [List.foldl_cons, List.foldl_cons, ih (init * 10 + digVal c),
      ih (0 * 10 + digVal c), List.length_cons, pow_succ]
    ring

theorem digitsToNat_append (a b : List Char) :
    digitsToNat (a ++ b) = digitsToNat a * 10 ^ b.length + digitsToNat b := by
  unfold digitsToNat
  rw [List.foldl_append, digitsToNat_foldl]

theorem digitsToNat_natToDigits (n : Nat) : digitsToNat (natToDigits n) = n := by
  induction n using Nat.strong_induction_on with
  | _ n ih =>
    rw [natToDigits_eq]
    by_cases h10 : n < 10
    · simp only [if_pos h10, digitsToNat, List.foldl_cons, List.foldl_nil]
      rw [digVal_digitChar n h10]
      omega
    · rw [if_neg h10, digitsToNat_append,
        ih (n / 10) (Nat.div_lt_self (by omega) (by omega))]
      have : digitsToNat [digitChar (n % 10)] = n % 10 := by
        simp only [digitsToNat, List.foldl_cons, List.foldl_nil]
        rw [digVal_digitChar _ (Nat.mod_lt n (by omega))]
        omega
      rw [this]
      simp only [List.length_singleton, pow_one]
      omega

theorem digitsToNat_replicate_zero (j : Nat) (b : List Char) :
    digitsToNat (List.replicate j '0' ++ b) = digitsToNat b := by
  induction j with
  | zero => simp
  | succ j ih =>
    rw [List.replicate_succ, List.cons_append]
    simp only [digitsToNat, List.foldl_cons] at ih ⊢
    simpa using ih

theorem takeWhile_all_append (p : Char → Bool) (a b : List Char)
    (h1 : ∀ c ∈ a, p c = true) (h2 : ∀ c t, b = c :: t → p c = false) :
    (a ++ b).takeWhile p = a := by
  induction a with
  | nil =>
    cases b with
    | nil => rfl
    | cons c t => simp [List.takeWhile_cons, h2 c t rfl]
  | cons x a ih =>
    have hx : p x = true := h1 x (by simp)
    simp only [List.cons_append, List.takeWhile_cons, hx]
    rw [ih (fun c hc => h1 c (by simp [hc]))]
    simp

theorem dropWhile_all_append (p : Char → Bool) (a b : List Char)
    (h1 : ∀ c ∈ a, p c = true) (h2 : ∀ c t, b = c :: t → p c = false) :
    (a ++ b).dropWhile p = b := by
  induction a with
  | nil =>
    cases b with
    | nil => rfl
    | cons c t => simp [List.dropWhile_cons, h2 c t rfl]
  | cons x a ih =>
    have hx : p x = true := h1 x (by simp)
    simp only [List.cons_append, List.dropWhile_cons, hx]
    rw [ih (fun c hc => h1 c (by simp [hc]))]
    simp

theorem natToDigits_length_le (n k : Nat) (hk : 0 < k) (h : n < 10 ^ k) :
    (natToDigits n).length ≤ k := by
  induction n using Nat.strong_induction_on generalizing k with
  | _ n ih =>
    rw [natToDigits_eq]
    by_cases h10 : n < 10
    · simp only [if_pos h10, List.length_singleton]
      omega
    · rw [if_neg h10]
      have hk2 : 2 ≤ k := by
        by_contra hc
        have : k = 1 := by omega
        subst this
        simp at h
        omega
      have hdiv : n / 10 < 10 ^ (k - 1) := by
        rw [Nat.div_lt_iff_lt_mul (by omega)]
        calc n < 10 ^ k := h
        _ = 10 ^ (k - 1) * 10 := by
              rw [← pow_succ]
              congr 1
              omega
      have := ih (n / 10) (Nat.div_lt_self (by omega) (by omega)) (k - 1)
        (by omega) hdiv
      simp only [List.length_append, List.length_singleton]
      omega


/-! ## The number round trip -/

/-- The continuations a stringified value may be followed by inside a larger
stringified value (or the end of input). -/
def restOk : List Char → Bool
  | [] => true
  | c :: _ => c = ',' || c = ']' || c = '}'

theorem restOk_not_digit (r : List Char) (hr : restOk r = true) :
    ∀ c t, r = c :: t → Char.isDigit c = false := by
  intro c t hct
  subst hct
  simp only [restOk, Bool.or_eq_true, decide_eq_true_eq] at hr
  rcases hr with (h | h) | h <;> subst h <;> decide

theorem ne_nil_isEmpty_false {l : List Char} (h : l ≠ []) : l.isEmpty = false := by
  cases l with
  | nil => exact absurd rfl h
  | cons c t => rfl

theorem parseFracPart_skip (cs2 : List Char) (h : restOk cs2 = true) :
    parseFracPart cs2 = .ok ([], cs2) := by
  rcases cs2 with _ | ⟨c, t⟩
  · rfl
  · have hc : c = ',' ∨ c = ']' ∨ c = '}' := by
      simp only [restOk, Bool.or_eq_true, decide_eq_true_eq] at h
      tauto
    rcases hc with h | h | h <;> subst h <;> rfl

theorem parseExpPart_skip (cs3 : List Char) (h : restOk cs3 = true) :
    parseExpPart cs3 = .ok (0, cs3) := by
  rcases cs3 with _ | ⟨c, t⟩
  · rfl
  · have hc : c = ',' ∨ c = ']' ∨ c = '}' := by
      simp only [restOk, Bool.or_eq_true, decide_eq_true_eq] at h
      tauto
    rcases hc with h | h | h <;> subst h <;> rfl

theorem parseFracPart_digits (frac r : List Char) (hne : frac ≠ [])
    (hdig : ∀ c ∈ frac, Char.isDigit c = true)
    (hrd : ∀ c t, r = c :: t → Char.isDigit c = false) :
    parseFracPart ('.' :: (frac ++ r)) = .ok (frac, r) := by
  have h1 := takeWhile_all_append Char.isDigit frac r hdig hrd
  have h2 := dropWhile_all_append Char.isDigit frac r hdig hrd
  simp only [parseFracPart, h1, h2]
  rw [ne_nil_isEmpty_false hne]
  simp

theorem parseNumberBody_unsigned (neg : Bool) (n k : Nat) (r : List Char)
    (hr : restOk r = true) :
    parseNumberBody neg (unsignedNumChars n k ++ r) =
      .ok (.num (if neg then -(n : Int) else (n : Int)) k, r) := by
  have hrd : ∀ c t, r = c :: t → Char.isDigit c = false := restOk_not_digit r hr
  by_cases hk : k = 0
  · subst hk
    have hu : unsignedNumChars n 0 = natToDigits n := by
      simp [unsignedNumChars]
    rw [hu]
    simp only [parseNumberBody]
    rw [takeWhile_all_append Char.isDigit _ r (natToDigits_all_digits n) hrd,
        dropWhile_all_append Char.isDigit _ r (natToDigits_all_digits n) hrd]
    rw [ne_nil_isEmpty_false (natToDigits_ne_nil n)]
    rw [if_neg (by simp)]
    rw [if_neg (natToDigits_no_leading_zero n)]
    rw [parseFracPart_skip r hr]
    simp only [parseExpPart_skip r hr]
    simp [digitsToNat_natToDigits]
  · have hkpos : 0 < k := by omega
    have hppos : 0 < 10 ^ k := by positivity
    set ip := natToDigits (n / 10 ^ k) with hip
    set fd := natToDigits (n % 10 ^ k) with hfd
    set frac := List.replicate (k - fd.length) '0' ++ fd with hfrac
    have hu : unsignedNumChars n k = ip ++ '.' :: frac := by
      simp only [unsignedNumChars, if_neg hk]
    have hle : fd.length ≤ k :=
      natToDigits_length_le _ k hkpos (Nat.mod_lt _ hppos)
    have hfl : frac.length = k := by
      simp only [hfrac, List.length_append, List.length_replicate]
      omega
    have hfracd : ∀ c ∈ frac, Char.isDigit c = true := by
      intro c hc
      rcases List.mem_append.mp hc with h | h
      · rw [List.eq_of_mem_replicate h]; decide
      · exact natToDigits_all_digits _ c h
    have hfne : frac ≠ [] := by
      intro hcon
      rw [hcon] at hfl
      simp at hfl
      omega
    rw [hu]
    have hassoc : (ip ++ '.' :: frac) ++ r = ip ++ '.' :: (frac ++ r) := by simp
    rw [hassoc]
    simp only [parseNumberBody]
    rw [takeWhile_all_append Char.isDigit ip ('.' :: (frac ++ r))
          (by rw [hip]; exact natToDigits_all_digits _)
          (by intro c t h; injection h with h1 _; subst h1; decide),
        dropWhile_all_append Char.isDigit ip ('.' :: (frac ++ r))
          (by rw [hip]; exact natToDigits_all_digits _)
          (by intro c t h; injection h with h1 _; subst h1; decide)]
    rw [ne_nil_isEmpty_false (by rw [hip]; exact natToDigits_ne_nil _)]
    rw [if_neg (by simp)]
    rw [if_neg (by rw [hip]; exact natToDigits_no_leading_zero _)]
    rw [parseFracPart_digits frac r hfne hfracd hrd]
    simp only [parseExpPart_skip r hr]
    have hmag : digitsToNat (ip ++ frac) = n := by
      rw [digitsToNat_append, hfl]
      have h1 : digitsToNat ip = n / 10 ^ k := by
        rw [hip, digitsToNat_natToDigits]
      have h2 : digitsToNat frac = n % 10 ^ k := by
        rw [hfrac, digitsToNat_replicate_zero, hfd, digitsToNat_natToDigits]
      rw [h1, h2]
      rw [Nat.mul_comm]
      exact Nat.div_add_mod n (10 ^ k)
    simp [hmag, hfl]

theorem unsignedNumChars_head (n k : Nat) :
    ∃ c t, unsignedNumChars n k = c :: t ∧ c.isDigit = true := by
  unfold unsignedNumChars
  by_cases hk : k = 0
  · simp only [if_pos hk]
    rcases hnd : natToDigits n with _ | ⟨c, t⟩
    · exact absurd hnd (natToDigits_ne_nil n)
    · exact ⟨c, t, rfl, natToDigits_all_digits n c (by rw [hnd]; simp)⟩
  · simp only [if_neg hk]
    rcases hnd : natToDigits (n / 10 ^ k) with _ | ⟨c, t⟩
    · exact absurd hnd (natToDigits_ne_nil _)
    · exact ⟨c, _, List.cons_append c t _, natToDigits_all_digits _ c (by rw [hnd]; simp)⟩

theorem parseNumber_numChars (m : Int) (k : Nat) (r : List Char)
    (hr : restOk r = true) :
    parseNumber (numChars m k ++ r) = .ok (.num m k, r) := by
  by_cases hm : m < 0
  · have hc : numChars m k = '-' :: unsignedNumChars m.natAbs k := by
      simp [numChars, hm]
    rw [hc]
    show parseNumberBody true (unsignedNumChars m.natAbs k ++ r) = _
    rw [parseNumberBody_unsigned true m.natAbs k r hr]
    have hnm : -(m.natAbs : Int) = m := by omega
    rw [if_pos rfl, hnm]
  · have hc : numChars m k = unsignedNumChars m.natAbs k := by
      simp [numChars, hm]
    rw [hc]
    obtain ⟨c, t, hct, hcd⟩ := unsignedNumChars_head m.natAbs k
    rw [hct, List.cons_append]
    have hred : parseNumber (c :: (t ++ r)) = parseNumberBody false (c :: (t ++ r)) := by
      have hcm : c ≠ '-' := by
        intro h
        subst h
        simp at hcd
      simp only [parseNumber]
      split
      · rename_i heq
        injection heq with h1 h2
        exact absurd h1 hcm
      · rfl
    rw [hred, ← List.cons_append, ← hct,
      parseNumberBody_unsigned false m.natAbs k r hr]
    have hnm : (m.natAbs : Int) = m := by omega
    rw [if_neg (by simp), hnm]

/-! ## The string-escape round trip -/

theorem hexVal_hexDigitChar (v : Nat) (h : v < 16) : hexVal (hexDigitChar v) = some v := by
  interval_cases v <;> decide

theorem parseStringBody_escape (s r : List Char) :
    parseStringBody (escapeList s ++ '"' :: r) = .ok (s, r) := by
  induction s with
  | nil =>
    show parseStringBody ('"' :: r) = _
    rw [parseStringBody.eq_def]
    dsimp only
    rw [if_pos rfl]
  | cons c s ih =>
    rw [show escapeList (c :: s) = escapeChar c ++ escapeList s from rfl,
      List.append_assoc]
    unfold escapeChar
    by_cases h1 : c = '"'
    · subst h1
      rw [if_pos rfl]
      show parseStringBody ('\\' :: '"' :: (escapeList s ++ '"' :: r)) = _
      simp only [parseStringBody, ih]
      rfl
    · rw [if_neg h1]
      by_cases h2 : c = '\\'
      · subst h2
        rw [if_pos rfl]
        show parseStringBody ('\\' :: '\\' :: (escapeList s ++ '"' :: r)) = _
        simp only [parseStringBody, ih]
        rfl
      · rw [if_neg h2]
        by_cases h3 : c = '\n'
        · subst h3
          rw [if_pos rfl]
          show parseStringBody ('\\' :: 'n' :: (escapeList s ++ '"' :: r)) = _
          simp only [parseStringBody, ih]
          rfl
        · rw [if_neg h3]
          by_cases h4 : c = '\r'
          · subst h4
            rw [if_pos rfl]
            show parseStringBody ('\\' :: 'r' :: (escapeList s ++ '"' :: r)) = _
            simp only [parseStringBody, ih]
            rfl
          · rw [if_neg h4]
            by_cases h5 : c = '\t'
            · subst h5
              rw [if_pos rfl]
              show parseStringBody ('\\' :: 't' :: (escapeList s ++ '"' :: r)) = _
              simp only [parseStringBody, ih]
              rfl
            · rw [if_neg h5]
              by_cases h6 : c.toNat = 8
              · rw [if_pos h6]
                have hc : c = Char.ofNat 8 := by
                  rw [← h6, Char.ofNat_toNat]
                show parseStringBody ('\\' :: 'b' :: (escapeList s ++ '"' :: r)) = _
                simp only [parseStringBody, ih]
                rw [hc]
                rfl
              · rw [if_neg h6]
                by_cases h7 : c.toNat = 12
                · rw [if_pos h7]
                  have hc : c = Char.ofNat 12 := by
                    rw [← h7, Char.ofNat_toNat]
                  show parseStringBody ('\\' :: 'f' :: (escapeList s ++ '"' :: r)) = _
                  simp only [parseStringBody, ih]
                  rw [hc]
                  rfl
                · rw [if_neg h7]
                  by_cases h8 : c.toNat < 32
                  · rw [if_pos h8]
                    show parseStringBody
                      ('\\' :: 'u' :: '0' :: '0' :: hexDigitChar (c.toNat / 16) ::
                        hexDigitChar (c.toNat % 16) :: (escapeList s ++ '"' :: r)) = _
                    simp only [parseStringBody]
                    rw [hexVal_hexDigitChar (c.toNat / 16) (by omega),
                        hexVal_hexDigitChar (c.toNat % 16) (by omega)]
                    simp only [ih]
                    have harith : ((0 * 16 + 0) * 16 + c.toNat / 16) * 16 + c.toNat % 16
                        = c.toNat := by omega
                    rw [show hexVal '0' = some 0 from by decide]
                    simp only [harith, Char.ofNat_toNat]
                    rfl
                  · rw [if_neg h8]
                    show parseStringBody (c :: (escapeList s ++ '"' :: r)) = _
                    rw [parseStringBody.eq_def]
                    dsimp only
                    rw [if_neg h1, if_neg h2, if_neg h8, ih]
                    rfl



/-! ## The stringify/parse round trip -/

mutual

/-- Fuel sufficient for `parseVal` to parse a stringified value. -/
def Json.need : Json → Nat
  | .null => 1
  | .bool _ => 1
  | .num _ _ => 1
  | .str _ => 1
  | .arr xs => JsonList.need xs + 1
  | .obj fs => JsonObj.need fs + 1

/-- Fuel sufficient for `parseElems` on a stringified element list. -/
def JsonList.need : JsonList → Nat
  | .nil => 1
  | .cons v vs => max (Json.need v) (JsonList.need vs) + 1

/-- Fuel sufficient for `parseFields` on a stringified member list. -/
def JsonObj.need : JsonObj → Nat
  | .nil => 1
  | .cons _ v fs => max (Json.need v) (JsonObj.need fs) + 1

end

theorem jsonOneLeNeed (v : Json) : 1 ≤ Json.need v := by
  cases v <;> simp [Json.need, JsonList.need, JsonObj.need]

theorem jsonListOneLeNeed (xs : JsonList) : 1 ≤ JsonList.need xs := by
  cases xs <;> simp [JsonList.need]

theorem jsonObjOneLeNeed (fs : JsonObj) : 1 ≤ JsonObj.need fs := by
  cases fs <;> simp [JsonObj.need]

theorem isDigit_toNat (c : Char) (h : c.isDigit = true) :
    48 ≤ c.toNat ∧ c.toNat ≤ 57 := by
  simp only [Char.isDigit, Bool.and_eq_true, decide_eq_true_eq] at h
  exact h

theorem isDigit_facts (c : Char) (h : c.isDigit = true) :
    jsonWs c = false ∧ c ≠ ',' ∧ c ≠ ']' ∧ c ≠ '}' := by
  refine ⟨?_, ?_, ?_, ?_⟩
  · rcases Bool.eq_false_or_eq_true (jsonWs c) with hw | hw
    · simp only [jsonWs, Bool.or_eq_true, decide_eq_true_eq] at hw
      rcases hw with ((h1 | h1) | h1) | h1 <;> subst h1 <;> exact absurd h (by decide)
    · exact hw
  · intro h1; subst h1; exact absurd h (by decide)
  · intro h1; subst h1; exact absurd h (by decide)
  · intro h1; subst h1; exact absurd h (by decide)

/-- Every stringified value begins with a distinctive non-whitespace
character: never a comma, closing bracket, or closing brace. -/
theorem stringifyChars_head (v : Json) :
    ∃ c t, v.stringifyChars = c :: t ∧ jsonWs c = false ∧
      c ≠ ',' ∧ c ≠ ']' ∧ c ≠ '}' := by
  cases v with
  | null => exact ⟨'n', _, rfl, by decide, by decide, by decide, by decide⟩
  | bool b =>
    cases b with
    | true => exact ⟨'t', _, rfl, by decide, by decide, by decide, by decide⟩
    | false => exact ⟨'f', _, rfl, by decide, by decide, by decide, by decide⟩
  | str s => exact ⟨'"', _, rfl, by decide, by decide, by decide, by decide⟩
  | arr xs => exact ⟨'[', _, rfl, by decide, by decide, by decide, by decide⟩
  | obj fs => exact ⟨'{', _, rfl, by decide, by decide, by decide, by decide⟩
  | num m k =>
    show ∃ c t, numChars m k = c :: t ∧ _
    unfold numChars
    by_cases hm : m < 0
    · rw [if_pos hm]
      exact ⟨'-', _, rfl, by decide, by decide, by decide, by decide⟩
    · rw [if_neg hm]
      obtain ⟨c, t, hct, hcd⟩ := unsignedNumChars_head m.natAbs k
      rw [show ([] : List Char) ++ unsignedNumChars m.natAbs k
            = unsignedNumChars m.natAbs k from rfl, hct]
      obtain ⟨hw, hc1, hc2, hc3⟩ := isDigit_facts c hcd
      exact ⟨c, t, rfl, hw, hc1, hc2, hc3⟩

theorem skipWs_not_ws (c : Char) (cs : List Char) (h : jsonWs c = false) :
    skipWs (c :: cs) = c :: cs := by
  simp [skipWs, List.dropWhile_cons, h]

theorem parseVal_quote (fuel : Nat) (rest : List Char) :
    parseVal (fuel + 1) ('"' :: rest) =
      (do
        let p ← parseStringBody rest
        pure (Json.str (String.mk p.1), p.2)) := rfl

theorem parseVal_lbrack (fuel : Nat) (rest : List Char) :
    parseVal (fuel + 1) ('[' :: rest) =
      (match skipWs rest with
      | ']' :: rest2 => .ok (.arr .nil, rest2)
      | _ => do
        let p ← parseElems fuel rest
        pure (Json.arr p.1, p.2)) := rfl

theorem parseVal_lbrace (fuel : Nat) (rest : List Char) :
    parseVal (fuel + 1) ('{' :: rest) =
      (match skipWs rest with
      | '}' :: rest2 => .ok (.obj .nil, rest2)
      | _ => do
        let p ← parseFields fuel rest
        pure (Json.obj p.1, p.2)) := rfl

theorem parseVal_num_dispatch (fuel : Nat) (c : Char) (rest : List Char)
    (h : c = '-' ∨ c.isDigit = true) :
    parseVal (fuel + 1) (c :: rest) = parseNumber (c :: rest) := by
  rcases h with h | h
  · subst h; rfl
  · obtain ⟨hb1, hb2⟩ := isDigit_toNat c h
    have hc : c = Char.ofNat c.toNat := (Char.ofNat_toNat c).symm
    set t := c.toNat with ht
    clear_value t
    interval_cases t <;> subst hc <;> rfl

theorem objSep_head (k : String) (v : Json) (tl : JsonObj) :
    ∃ t, JsonObj.stringifyChars (.cons k v tl) = '"' :: t := by
  cases tl <;> exact ⟨_, rfl⟩

theorem parseFields_quote (f : Nat) (rest : List Char) :
    parseFields (f + 1) ('"' :: rest) =
      (do
        let p ← parseStringBody rest
        match skipWs p.2 with
        | ':' :: r2 => do
          let q ← parseVal f r2
          match skipWs q.2 with
          | ',' :: r4 => do
            let w ← parseFields f r4
            pure (JsonObj.cons (String.mk p.1) q.1 w.1, w.2)
          | '}' :: r4 => pure (JsonObj.cons (String.mk p.1) q.1 .nil, r4)
          | _ => Except.error "expected comma or closing brace in JSON object"
        | _ => Except.error "expected colon in JSON object") := rfl

mutual

theorem parseVal_rt (v : Json) (fuel : Nat) (h : Json.need v ≤ fuel)
    (r : List Char) (hr : restOk r = true) :
    parseVal fuel (Json.stringifyChars v ++ r) = .ok (v, r) := by
  obtain ⟨f, rfl⟩ : ∃ f, fuel = f + 1 := by
    cases fuel with
    | zero => exact absurd (le_trans (jsonOneLeNeed v) h) (by omega)
    | succ f => exact ⟨f, rfl⟩
  cases v with
  | null => rfl
  | bool b => cases b <;> rfl
  | str s =>
    show parseVal (f + 1) (('"' :: (escapeList s.data ++ ['"'])) ++ r) = _
    rw [List.cons_append, List.append_assoc]
    show parseVal (f + 1) ('"' :: (escapeList s.data ++ '"' :: r)) = _
    rw [parseVal_quote, parseStringBody_escape s.data r]
    obtain ⟨l⟩ := s
    rfl
  | num m k =>
    show parseVal (f + 1) (numChars m k ++ r) = _
    by_cases hm : m < 0
    · have hnum : numChars m k = '-' :: unsignedNumChars m.natAbs k := by
        simp [numChars, hm]
      rw [hnum, List.cons_append, parseVal_num_dispatch f '-' _ (Or.inl rfl),
        ← List.cons_append, ← hnum]
      exact parseNumber_numChars m k r hr
    · have hnum : numChars m k = unsignedNumChars m.natAbs k := by
        simp [numChars, hm]
      obtain ⟨c, t, hct, hcd⟩ := unsignedNumChars_head m.natAbs k
      rw [hnum, hct, List.cons_append, parseVal_num_dispatch f c _ (Or.inr hcd),
        ← List.cons_append, ← hct, ← hnum]
      exact parseNumber_numChars m k r hr
  | arr xs =>
    cases xs with
    | nil => rfl
    | cons w ws =>
      show parseVal (f + 1)
        (('[' :: (JsonList.stringifyChars (.cons w ws) ++ [']'])) ++ r) = _
      rw [List.cons_append, List.append_assoc]
      show parseVal (f + 1)
        ('[' :: (JsonList.stringifyChars (.cons w ws) ++ ']' :: r)) = _
      rw [parseVal_lbrack]
      obtain ⟨c, t, hct, hw, hc1, hc2, hc3⟩ := stringifyChars_head w
      have ht2 : ∃ t2, JsonList.stringifyChars (.cons w ws) = c :: t2 := by
        cases ws with
        | nil => exact ⟨t, hct⟩
        | cons u us =>
          refine ⟨t ++ ',' :: JsonList.stringifyChars (.cons u us), ?_⟩
          show Json.stringifyChars w ++ ',' :: _ = _
          rw [hct]
          rfl
      obtain ⟨t2, ht2⟩ := ht2
      rw [ht2, List.cons_append, skipWs_not_ws c _ hw]
      split
      · rename_i heq
        injection heq with h1 _
        exact absurd h1 hc2
      · rw [← List.cons_append, ← ht2,
          parseElems_rt (.cons w ws) (by simp) f
            (by simp only [Json.need] at h; omega) r]
        rfl
  | obj fs =>
    cases fs with
    | nil => rfl
    | cons k v tl =>
      show parseVal (f + 1)
        (('{' :: (JsonObj.stringifyChars (.cons k v tl) ++ ['}'])) ++ r) = _
      rw [List.cons_append, List.append_assoc]
      show parseVal (f + 1)
        ('{' :: (JsonObj.stringifyChars (.cons k v tl) ++ '}' :: r)) = _
      rw [parseVal_lbrace]
      obtain ⟨t2, ht2⟩ := objSep_head k v tl
      rw [ht2, List.cons_append, skipWs_not_ws '"' _ (by decide)]
      split
      · rename_i heq
        injection heq with h1 _
        exact absurd h1 (by decide)
      · rw [← List.cons_append, ← ht2,
          parseFields_rt (.cons k v tl) (by simp) f
            (by simp only [Json.need] at h; omega) r]
        rfl

theorem parseElems_rt (xs : JsonList) (hne : xs ≠ JsonList.nil) (fuel : Nat)
    (h : JsonList.need xs ≤ fuel) (r : List Char) :
    parseElems fuel (JsonList.stringifyChars xs ++ ']' :: r) = .ok (xs, r) := by
  obtain ⟨f, rfl⟩ : ∃ f, fuel = f + 1 := by
    cases fuel with
    | zero => exact absurd (le_trans (jsonListOneLeNeed xs) h) (by omega)
    | succ f => exact ⟨f, rfl⟩
  cases xs with
  | nil => exact absurd rfl hne
  | cons w ws =>
    have hneed : Json.need w ≤ f ∧ JsonList.need ws ≤ f := by
      simp only [JsonList.need] at h
      omega
    cases ws with
    | nil =>
      show parseElems (f + 1) (Json.stringifyChars w ++ ']' :: r) = _
      simp only [parseElems]
      rw [parseVal_rt w f hneed.1 (']' :: r) rfl]
      rfl
    | cons u us =>
      show parseElems (f + 1)
        ((Json.stringifyChars w ++ ',' :: JsonList.stringifyChars (.cons u us))
          ++ ']' :: r) = _
      rw [List.append_assoc, List.cons_append]
      simp only [parseElems]
      rw [parseVal_rt w f hneed.1
        (',' :: (JsonList.stringifyChars (.cons u us) ++ ']' :: r)) rfl]
      show (do
        let p ← parseElems f (JsonList.stringifyChars (.cons u us) ++ ']' :: r)
        pure (JsonList.cons w p.1, p.2) :
          Except String (JsonList × List Char)) = _
      rw [parseElems_rt (.cons u us) (by simp) f hneed.2 r]
      rfl

theorem parseFields_rt (fs : JsonObj) (hne : fs ≠ JsonObj.nil) (fuel : Nat)
    (h : JsonObj.need fs ≤ fuel) (r : List Char) :
    parseFields fuel (JsonObj.stringifyChars fs ++ '}' :: r) = .ok (fs, r) := by
  obtain ⟨f, rfl⟩ : ∃ f, fuel = f + 1 := by
    cases fuel with
    | zero => exact absurd (le_trans (jsonObjOneLeNeed fs) h) (by omega)
    | succ f => exact ⟨f, rfl⟩
  cases fs with
  | nil => exact absurd rfl hne
  | cons k v tl =>
    have hneed : Json.need v ≤ f ∧ JsonObj.need tl ≤ f := by
      simp only [JsonObj.need] at h
      omega
    cases tl with
    | nil =>
      show parseFields (f + 1)
        (('"' :: (escapeList k.data ++ '"' :: ':' :: Json.stringifyChars v))
          ++ '}' :: r) = _
      rw [List.cons_append, List.append_assoc]
      show parseFields (f + 1)
        ('"' :: (escapeList k.data ++ '"' :: ':' :: (Json.stringifyChars v ++ '}' :: r))) = _
      rw [parseFields_quote,
        parseStringBody_escape k.data (':' :: (Json.stringifyChars v ++ '}' :: r))]
      show (do
        let q ← parseVal f (Json.stringifyChars v ++ '}' :: r)
        match skipWs q.2 with
        | ',' :: r4 => do
          let w ← parseFields f r4
          pure (JsonObj.cons (String.mk k.data) q.1 w.1, w.2)
        | '}' :: r4 => pure (JsonObj.cons (String.mk k.data) q.1 .nil, r4)
        | _ => Except.error "expected comma or closing brace in JSON object" :
          Except String (JsonObj × List Char)) = _
      rw [parseVal_rt v f hneed.1 ('}' :: r) rfl]
      obtain ⟨l⟩ := k
      rfl
    | cons k2 v2 tl2 =>
      show parseFields (f + 1)
        ((('"' :: (escapeList k.data ++ '"' :: ':' :: Json.stringifyChars v))
          ++ ',' :: JsonObj.stringifyChars (.cons k2 v2 tl2)) ++ '}' :: r) = _
      rw [List.append_assoc, List.cons_append, List.cons_append, List.append_assoc]
      show parseFields (f + 1)
        ('"' :: (escapeList k.data ++ '"' :: ':' ::
          (Json.stringifyChars v ++ ',' :: (JsonObj.stringifyChars (.cons k2 v2 tl2) ++ '}' :: r)))) = _
      rw [parseFields_quote,
        parseStringBody_escape k.data
          (':' :: (Json.stringifyChars v ++ ',' ::
            (JsonObj.stringifyChars (.cons k2 v2 tl2) ++ '}' :: r)))]
      show (do
        let q ← parseVal f (Json.stringifyChars v ++ ',' ::
          (JsonObj.stringifyChars (.cons k2 v2 tl2) ++ '}' :: r))
        match skipWs q.2 with
        | ',' :: r4 => do
          let w ← parseFields f r4
          pure (JsonObj.cons (String.mk k.data) q.1 w.1, w.2)
        | '}' :: r4 => pure (JsonObj.cons (String.mk k.data) q.1 .nil, r4)
        | _ => Except.error "expected comma or closing brace in JSON object" :
          Except String (JsonObj × List Char)) = _
      rw [parseVal_rt v f hneed.1
        (',' :: (JsonObj.stringifyChars (.cons k2 v2 tl2) ++ '}' :: r)) rfl]
      show (do
        let w ← parseFields f (JsonObj.stringifyChars (.cons k2 v2 tl2) ++ '}' :: r)
        pure (JsonObj.cons (String.mk k.data) v w.1, w.2) :
          Except String (JsonObj × List Char)) = _
      rw [parseFields_rt (.cons k2 v2 tl2) (by simp) f hneed.2 r]
      obtain ⟨l⟩ := k
      rfl

end


theorem stringifyChars_length_pos (v : Json) : 1 ≤ (Json.stringifyChars v).length := by
  obtain ⟨c, t, hct, _, _, _, _⟩ := stringifyChars_head v
  rw [hct]
  simp

mutual

theorem jsonNeedLeLength (v : Json) :
    Json.need v ≤ (Json.stringifyChars v).length := by
  cases v with
  | null => decide
  | bool b => cases b <;> decide
  | num m k =>
    have := stringifyChars_length_pos (.num m k)
    simp only [Json.need]
    omega
  | str s =>
    have := stringifyChars_length_pos (.str s)
    simp only [Json.need]
    omega
  | arr xs =>
    have h1 := jsonListNeedLeLength xs
    show JsonList.need xs + 1 ≤ ('[' :: (JsonList.stringifyChars xs ++ [']'])).length
    simp only [List.length_cons, List.length_append, List.length_singleton]
    omega
  | obj fs =>
    have h1 := jsonObjNeedLeLength fs
    show JsonObj.need fs + 1 ≤ ('{' :: (JsonObj.stringifyChars fs ++ ['}'])).length
    simp only [List.length_cons, List.length_append, List.length_singleton]
    omega

theorem jsonListNeedLeLength (xs : JsonList) :
    JsonList.need xs ≤ (JsonList.stringifyChars xs).length + 1 := by
  cases xs with
  | nil => decide
  | cons w ws =>
    have h1 := jsonNeedLeLength w
    have h2 := stringifyChars_length_pos w
    cases ws with
    | nil =>
      show max (Json.need w) (JsonList.need .nil) + 1 ≤
        (Json.stringifyChars w).length + 1
      simp only [JsonList.need]
      omega
    | cons u us =>
      have h3 := jsonListNeedLeLength (.cons u us)
      show max (Json.need w) (JsonList.need (.cons u us)) + 1 ≤
        (Json.stringifyChars w ++ ',' :: JsonList.stringifyChars (.cons u us)).length + 1
      simp only [List.length_append, List.length_cons]
      omega

theorem jsonObjNeedLeLength (fs : JsonObj) :
    JsonObj.need fs ≤ (JsonObj.stringifyChars fs).length + 1 := by
  cases fs with
  | nil => decide
  | cons k v tl =>
    have h1 := jsonNeedLeLength v
    have h2 := stringifyChars_length_pos v
    cases tl with
    | nil =>
      show max (Json.need v) (JsonObj.need .nil) + 1 ≤
        ('"' :: (escapeList k.data ++ '"' :: ':' :: Json.stringifyChars v)).length + 1
      simp only [JsonObj.need, List.length_cons, List.length_append]
      omega
    | cons k2 v2 tl2 =>
      have h3 := jsonObjNeedLeLength (.cons k2 v2 tl2)
      show max (Json.need v) (JsonObj.need (.cons k2 v2 tl2)) + 1 ≤
        (('"' :: (escapeList k.data ++ '"' :: ':' :: Json.stringifyChars v)) ++
          ',' :: JsonObj.stringifyChars (.cons k2 v2 tl2)).length + 1
      simp only [List.length_cons, List.length_append]
      omega

end

/-- `JSON.parse` inverts `JSON.stringify` exactly on every `Json` value. -/
theorem parseJson_stringify (v : Json) : parseJson (Json.stringify v) = .ok v := by
  have h1 : parseVal ((Json.stringifyChars v).length + 1)
      (Json.stringifyChars v ++ []) = .ok (v, []) :=
    parseVal_rt v _ (le_trans (jsonNeedLeLength v) (by omega)) [] rfl
  rw [List.append_nil] at h1
  show (do
    let p ← parseVal ((String.mk (Json.stringifyChars v)).data.length + 1)
      (String.mk (Json.stringifyChars v)).data
    match skipWs p.2 with
    | [] => pure p.1
    | _ => Except.error "unexpected trailing characters after JSON value" :
      Except String Json) = _
  rw [show (String.mk (Json.stringifyChars v)).data = Json.stringifyChars v from rfl]
  rw [h1]
  rfl


/-! ## The stdout line scan of the close handler -/

theorem scanJsonLine_no_match (ls : List String)
    (h : ∀ l ∈ ls, isBraceLine l = false) : scanJsonLine ls = "" := by
  induction ls with
  | nil => rfl
  | cons l ls ih =>
    simp only [scanJsonLine, h l (by simp)]
    exact ih (fun x hx => h x (by simp [hx]))

theorem scanJsonLine_first (ls : List String) (i : Nat) (hi : i < ls.length)
    (hbefore : ∀ j (hj : j < i), isBraceLine (ls.get ⟨j, lt_trans hj hi⟩) = false)
    (hit : isBraceLine (ls.get ⟨i, hi⟩) = true) :
    scanJsonLine ls = jsTrim (ls.get ⟨i, hi⟩) := by
  induction ls generalizing i with
  | nil => simp at hi
  | cons l ls ih =>
    cases i with
    | zero =>
      simp only [List.get] at hit
      simp [scanJsonLine, hit]
    | succ i =>
      have h0 : isBraceLine l = false := hbefore 0 (by omega)
      simp only [scanJsonLine, h0]
      simp only [List.get] at hit ⊢
      exact ih i (by simp only [List.length_cons] at hi; omega)
        (fun j hj => hbefore (j + 1) (by omega)) hit

theorem scanJsonLine_filter (ls : List String) (l : String)
    (h : (ls.filter isBraceLine).head? = some l) :
    scanJsonLine ls = jsTrim l := by
  induction ls with
  | nil => simp at h
  | cons x ls ih =>
    by_cases hx : isBraceLine x = true
    · rw [List.filter_cons_of_pos hx] at h
      simp only [List.head?_cons, Option.some_inj] at h
      subst h
      simp [scanJsonLine, hx]
    · rw [List.filter_cons_of_neg (by simpa using hx)] at h
      simp only [scanJsonLine, hx]
      simp only [Bool.false_eq_true, if_false]
      exact ih h

theorem startsWith_brace_ne_empty (s : String) (h : jsStartsWith s "\x7b" = true) :
    s ≠ "" := by
  intro hcon
  subst hcon
  simp [jsStartsWith, chLeadsWith] at h

theorem scanJsonLine_any (ls : List String) (h : ls.any isBraceLine = true) :
    jsStartsWith (scanJsonLine ls) "\x7b" = true := by
  induction ls with
  | nil => simp at h
  | cons l ls ih =>
    by_cases hl : isBraceLine l = true
    · simp only [scanJsonLine, hl, if_true]
      exact hl
    · simp only [scanJsonLine, hl]
      simp only [Bool.false_eq_true, if_false]
      refine ih ?_
      simp only [List.any_cons, Bool.or_eq_true] at h
      rcases h with h | h
      · exact absurd h hl
      · exact h

theorem firstJsonLine_of_any (dataString : String)
    (h : (splitLines dataString).any isBraceLine = true) :
    firstJsonLine dataString ≠ "" ∧
    jsStartsWith (firstJsonLine dataString) "\x7b" = true :=
  ⟨startsWith_brace_ne_empty _ (scanJsonLine_any _ h), scanJsonLine_any _ h⟩


theorem except_bind_ok_eq {ε α β : Type} (a : α) (f : α → Except ε β) :
    (Except.ok a : Except ε α) >>= f = f a := rfl

theorem except_bind_error_eq {ε α β : Type} (e : ε) (f : α → Except ε β) :
    (Except.error e : Except ε α) >>= f = .error e := rfl

theorem parseNumberBody_shape (neg : Bool) (cs1 : List Char) (v : Json)
    (r : List Char) (h : parseNumberBody neg cs1 = .ok (v, r)) :
    ∃ m k, v = .num m k := by
  simp only [parseNumberBody] at h
  repeat' split at h
  all_goals first
    | (simp only [Except.ok.injEq, Prod.mk.injEq] at h; exact ⟨_, _, h.1.symm⟩)
    | simp at h

theorem parseNumber_shape (cs : List Char) (v : Json) (r : List Char)
    (h : parseNumber cs = .ok (v, r)) : ∃ m k, v = .num m k := by
  simp only [parseNumber] at h
  split at h
  · exact parseNumberBody_shape _ _ _ _ h
  · exact parseNumberBody_shape _ _ _ _ h

theorem parseVal_obj_head (fuel : Nat) (cs : List Char) (fs : JsonObj)
    (r : List Char) (h : parseVal fuel cs = .ok (.obj fs, r)) :
    ∃ t, skipWs cs = '{' :: t := by
  cases fuel with
  | zero => exact absurd h (by simp [parseVal])
  | succ f =>
    simp only [parseVal] at h
    rcases hs : skipWs cs with _ | ⟨c, t⟩ <;> rw [hs] at h
    · exact absurd h (by simp)
    · by_cases hc : c = '{'
      · exact ⟨t, by rw [hc]⟩
      · exfalso
        split at h
        · simp at h
        · rename_i heq
          injection heq with h1 _
          exact hc h1
        · split at h
          · simp at h
          · rcases hp : parseElems f _ with e | p <;> rw [hp] at h
            · rw [except_bind_error_eq] at h
              simp at h
            · rw [except_bind_ok_eq] at h
              obtain ⟨x1, x2⟩ := p
              simp [pure, Except.pure] at h
        · rcases hp : parseStringBody _ with e | p <;> rw [hp] at h
          · rw [except_bind_error_eq] at h
            simp at h
          · rw [except_bind_ok_eq] at h
            obtain ⟨x1, x2⟩ := p
            simp [pure, Except.pure] at h
        · split at h <;> simp at h
        · split at h <;> simp at h
        · split at h <;> simp at h
        · split at h
          · obtain ⟨m, k, hv⟩ := parseNumber_shape _ _ _ h
            exact Json.noConfusion hv
          · simp at h


theorem dropWhile_ws_head (cs : List Char) (c : Char) (u : List Char)
    (h : cs.dropWhile jsonWs = c :: u) : jsonWs c = false := by
  induction cs with
  | nil => simp at h
  | cons x xs ih =>
    rw [List.dropWhile_cons] at h
    split at h
    · exact ih h
    · rename_i hx
      injection h with h1 _
      subst h1
      simpa using hx

theorem trimEnd_head (cs : List Char) (c : Char) (u : List Char)
    (h : trimEnd cs = c :: u) : ∃ u2, cs = c :: u2 := by
  cases cs with
  | nil => simp [trimEnd] at h
  | cons x xs =>
    simp only [trimEnd] at h
    split at h
    · simp at h
    · injection h with h1 _
      exact ⟨xs, by rw [h1]⟩

theorem trimChars_head_not_ws (cs : List Char) (c : Char) (u : List Char)
    (h : trimChars cs = c :: u) : jsonWs c = false := by
  unfold trimChars at h
  obtain ⟨u2, h2⟩ := trimEnd_head _ _ _ h
  exact dropWhile_ws_head cs c u2 h2

theorem isBraceLine_of_parse_obj (l : String) (fs : JsonObj)
    (h : parseJson (jsTrim l) = .ok (.obj fs)) : isBraceLine l = true := by
  unfold parseJson at h
  rcases hp : parseVal ((jsTrim l).data.length + 1) (jsTrim l).data with e | p <;>
    rw [hp] at h
  · rw [except_bind_error_eq] at h
    simp at h
  · rw [except_bind_ok_eq] at h
    obtain ⟨v, rest⟩ := p
    have h2 : (match skipWs rest with
        | [] => pure v
        | _ => Except.error "unexpected trailing characters after JSON value" :
          Except String Json) = Except.ok (Json.obj fs) := h
    have hv1 : v = .obj fs := by
      rcases hsw : skipWs rest with _ | ⟨c0, t0⟩ <;> rw [hsw] at h2
      · simpa [pure, Except.pure] using h2
      · simp at h2
    rw [hv1] at hp
    obtain ⟨t, ht⟩ := parseVal_obj_head _ _ fs _ hp
    rw [show (jsTrim l).data = trimChars l.data from rfl] at ht
    rcases htc : trimChars l.data with _ | ⟨c, u⟩
    · rw [htc] at ht
      simp [skipWs] at ht
    · have hcw : jsonWs c = false := trimChars_head_not_ws _ _ _ htc
      rw [htc, skipWs_not_ws c u hcw] at ht
      injection ht with h1 _
      show chLeadsWith ['{'] (jsTrim l).data = true
      rw [show (jsTrim l).data = trimChars l.data from rfl, htc, h1]
      simp [chLeadsWith]


/-! ## The claims -/


/-- Claim C2: for every invocation whose worker process exits with a non-zero
code, `invoke` rejects with a `NonZeroExit` failure carrying the exit code
and the full stderr buffer, even when the accumulated stdout is valid JSON
with `success: true`; stdout is never parsed in this case (the outcome is
independent of the stdout buffer). -/
theorem C2_nonzero_exit (code : Int) (hcode : code ≠ 0)
    (dataString dataString2 errorString : String) :
    (onClose code dataString errorString).1 = .nonZeroExit code errorString ∧
    onClose code dataString errorString = onClose code dataString2 errorString := by
  constructor <;> simp [onClose, hcode]

/-- Witness for claim C2 at exit code 1, with stdout that is valid JSON with
`success: true`. -/
theorem C2_witness :
    ((1 : Int) ≠ 0) ∧
    parseJson "\x7b\"success\": true\x7d" =
      .ok (.obj (.cons "success" (.bool true) .nil)) ∧
    (onClose 1 "\x7b\"success\": true\x7d" "boom").1 = .nonZeroExit 1 "boom" :=
  ⟨by decide, by decide,
    (C2_nonzero_exit 1 (by decide) "\x7b\"success\": true\x7d" "" "boom").1⟩

/-- Claim C3: every invocation of the Bridge yields exactly one terminal
outcome per terminal process event: the settled result either resolves (and
then carries no rejection message) or rejects with an `Error` message, never
both and never neither.  Events model the terminal `close`/`error` callback
of one invocation; the promise machinery settles exactly once per event. -/
theorem C3_single_outcome (ev : ProcEvent) :
    ((invokeOutcome ev).1.isResolved = true ∧ (invokeOutcome ev).1.errMessage = none) ∨
    ((invokeOutcome ev).1.isResolved = false ∧
      ∃ msg, (invokeOutcome ev).1.errMessage = some msg) := by
  rcases (invokeOutcome ev).1 with v | m | ⟨c, e⟩ | m
  · exact Or.inl ⟨rfl, rfl⟩
  · exact Or.inr ⟨rfl, _, rfl⟩
  · exact Or.inr ⟨rfl, _, rfl⟩
  · exact Or.inr ⟨rfl, _, rfl⟩

/-- Claim C7: if the worker process cannot be started at all, `invoke`
rejects with a `SpawnFailure` failure carrying the underlying system error
text; the outcome is distinct from `NonZeroExit` and carries no exit code
and no stdout/stderr contents (it is built from the system error text
alone). -/
theorem C7_spawn_failure (sysErrMsg : String) :
    (invokeOutcome (.spawnError sysErrMsg)).1 = .spawnFailure sysErrMsg ∧
    (invokeOutcome (.spawnError sysErrMsg)).1.errMessage =
      some ("Failed to start Python process: " ++ sysErrMsg) ∧
    ∀ code stderr, (invokeOutcome (.spawnError sysErrMsg)).1 ≠ .nonZeroExit code stderr :=
  ⟨rfl, rfl, fun _ _ hcon => BridgeResult.noConfusion hcon⟩

/-- Claim C5: if the worker exits 0 and no line of stdout has trimmed
content starting with a brace, the Bridge attempts to parse the entire
trimmed stdout buffer as one JSON value, and resolves with that value when
the parse succeeds. -/
theorem C5_whole_buffer_fallback (dataString errorString : String) (v : Json)
    (hno : ∀ l ∈ splitLines dataString, isBraceLine l = false)
    (hp : parseJson (jsTrim dataString) = .ok v) :
    (onClose 0 dataString errorString).1 = .resolved v := by
  have h1 : firstJsonLine dataString = "" := scanJsonLine_no_match _ hno
  simp [onClose, h1, hp]

/-- Witness for claim C5 at stdout consisting of a single JSON array with no
brace-led line. -/
theorem C5_witness :
    ((splitLines "[1, 2]").all (fun l => !isBraceLine l) = true) ∧
    (onClose 0 "[1, 2]" "").1 =
      .resolved (.arr (.cons (.num 1 0) (.cons (.num 2 0) .nil))) :=
  ⟨by decide,
    C5_whole_buffer_fallback "[1, 2]" "" _ (by decide) (by decide)⟩

/-- Counterexample to claim C6 as stated: at worker stdout `hello` with exit
code 0, the rejection carries the parse error message but not the raw stdout
contents — the rejection message does not contain the stdout text, and two
different stdout buffers yield identical rejections, so the rejection cannot
carry the raw stdout.  The raw stdout goes only to the console error log. -/
theorem C6_cex :
    (onClose 0 "hello" "").1 = .unparsableOutput "unexpected token in JSON" ∧
    (onClose 0 "hello" "").1.errMessage =
      some "Failed to parse Python output: unexpected token in JSON" ∧
    includesStr "Failed to parse Python output: unexpected token in JSON" "hello"
      = false ∧
    (onClose 0 "hello" "").1 = (onClose 0 "farewell" "").1 :=
  ⟨by decide, by decide, by decide, by decide⟩

/-- Claim C6 as amended: if the worker exits 0 and the executed extraction
attempt fails (the first brace-led line when one exists, otherwise the whole
trimmed buffer — in particular when stdout is empty), `invoke` rejects with
an `UnparsableOutput` failure carrying the parse error message; the raw
stdout contents are written to the console error log (the
`console.error('Raw output:', dataString)` entry), not carried in the
rejection. -/
theorem C6_unparsable_rejection (dataString errorString m : String)
    (hfail : (if firstJsonLine dataString ≠ "" then parseJson (firstJsonLine dataString)
      else parseJson (jsTrim dataString)) = .error m) :
    (onClose 0 dataString errorString).1 = .unparsableOutput m ∧
    (onClose 0 dataString errorString).1.errMessage =
      some ("Failed to parse Python output: " ++ m) ∧
    ("Raw output:", dataString) ∈ (onClose 0 dataString errorString).2 := by
  by_cases hb : firstJsonLine dataString ≠ ""
  · rw [if_pos hb] at hfail
    simp [onClose, hb, hfail, BridgeResult.errMessage]
  · have hb2 : firstJsonLine dataString = "" := not_ne_iff.mp hb
    rw [if_neg hb] at hfail
    simp [onClose, hb2, hfail, BridgeResult.errMessage]

/-- Witness for amended claim C6 at empty stdout. -/
theorem C6_witness :
    (onClose 0 "" "").1 = .unparsableOutput "unexpected end of JSON input" ∧
    (onClose 0 "" "").1.errMessage =
      some ("Failed to parse Python output: " ++ "unexpected end of JSON input") ∧
    ("Raw output:", "") ∈ (onClose 0 "" "").2 :=
  C6_unparsable_rejection "" "" "unexpected end of JSON input" (by decide)

/-- Claim C10: when the worker exits 0 and some line of stdout has trimmed
content starting with a brace but the selected line does not parse as a
complete JSON value, `invoke` rejects with `UnparsableOutput`; the
whole-buffer fallback parse is never attempted — the conclusion holds with
no assumption on the whole-buffer parse, even when the entire stdout buffer
is valid JSON. -/
theorem C10_no_fallback_after_brace_line (dataString errorString m : String)
    (hany : (splitLines dataString).any isBraceLine = true)
    (hfail : parseJson (firstJsonLine dataString) = .error m) :
    (onClose 0 dataString errorString).1 = .unparsableOutput m := by
  obtain ⟨hne, _⟩ := firstJsonLine_of_any dataString hany
  simp [onClose, hne, hfail]

/-- Witness for claim C10 at a pretty-printed JSON object spanning multiple
lines: the whole trimmed buffer is valid JSON, yet the invocation is
rejected. -/
theorem C10_witness :
    ((splitLines "\x7b\n  \"a\": 1\n\x7d").any isBraceLine = true) ∧
    parseJson (jsTrim "\x7b\n  \"a\": 1\n\x7d") = .ok (.obj (.cons "a" (.num 1 0) .nil)) ∧
    (onClose 0 "\x7b\n  \"a\": 1\n\x7d" "").1 =
      .unparsableOutput "expected string key in JSON object" :=
  ⟨by decide, by decide,
    C10_no_fallback_after_brace_line "\x7b\n  \"a\": 1\n\x7d" "" _ (by decide) (by decide)⟩



/-- Claim C4: if the worker exits 0 and stdout contains two or more lines
whose trimmed content starts with a brace, the earliest such line in stream
order is the one parsed, and its parse alone determines the outcome (it is
returned when it parses; later JSON-shaped lines are ignored). -/
theorem C4_first_brace_line_wins (dataString errorString : String) (l0 : String)
    (hhead : ((splitLines dataString).filter isBraceLine).head? = some l0)
    (h2 : 2 ≤ ((splitLines dataString).filter isBraceLine).length) :
    (onClose 0 dataString errorString).1 =
      (match parseJson (jsTrim l0) with
       | .ok v => .resolved v
       | .error m => .unparsableOutput m) := by
  have hscan : firstJsonLine dataString = jsTrim l0 :=
    scanJsonLine_filter _ l0 hhead
  have hl0 : isBraceLine l0 = true := by
    rcases hf : (splitLines dataString).filter isBraceLine with _ | ⟨x, xs⟩
    · rw [hf] at hhead
      simp at hhead
    · rw [hf] at hhead
      simp only [List.head?_cons, Option.some_inj] at hhead
      have hmem : x ∈ (splitLines dataString).filter isBraceLine := by
        rw [hf]
        exact List.mem_cons_self _ _
      rw [← hhead]
      exact List.of_mem_filter hmem
  have hne2 : jsTrim l0 ≠ "" := startsWith_brace_ne_empty _ hl0
  have hne : firstJsonLine dataString ≠ "" := by
    rw [hscan]
    exact hne2
  rcases hp : parseJson (jsTrim l0) with m | v
  · simp [onClose, hne, hscan, hp, hne2]
  · simp [onClose, hne, hscan, hp, hne2]

/-- Witness for claim C4 at stdout with two JSON-object lines: the earlier
one is returned even though the later one is also valid. -/
theorem C4_witness :
    (((splitLines "\x7b\"a\": 1\x7d\n\x7b\"b\": 2\x7d").filter isBraceLine).length = 2) ∧
    parseJson (jsTrim "\x7b\"b\": 2\x7d") = .ok (.obj (.cons "b" (.num 2 0) .nil)) ∧
    (onClose 0 "\x7b\"a\": 1\x7d\n\x7b\"b\": 2\x7d" "").1 =
      .resolved (.obj (.cons "a" (.num 1 0) .nil)) := by
  refine ⟨by decide, by decide, ?_⟩
  have h := C4_first_brace_line_wins "\x7b\"a\": 1\x7d\n\x7b\"b\": 2\x7d" "" "\x7b\"a\": 1\x7d"
    (by decide) (by decide)
  rw [h]
  decide



/-- Counterexample to claim C1 as stated: the stdout `{oops` newline
`{"a": 1}` (exit 0) has exactly one line that is a valid JSON object, every
other line not being JSON, yet `invoke` rejects: the scan picks the earlier
non-JSON line `{oops` because its trimmed content starts with a brace, and
its parse fails. -/
theorem C1_cex :
    splitLines "\x7boops\n\x7b\"a\": 1\x7d" = ["\x7boops", "\x7b\"a\": 1\x7d"] ∧
    (parseJson (jsTrim "\x7boops")).isOk = false ∧
    parseJson (jsTrim "\x7b\"a\": 1\x7d") = .ok (.obj (.cons "a" (.num 1 0) .nil)) ∧
    (onClose 0 "\x7boops\n\x7b\"a\": 1\x7d" "").1 =
      .unparsableOutput "expected string key in JSON object" ∧
    ((onClose 0 "\x7boops\n\x7b\"a\": 1\x7d" "").1).isResolved = false :=
  ⟨by decide, by decide, by decide, by decide, by decide⟩

/-- Claim C1 as amended: for every invocation whose worker exits 0 and whose
stdout contains exactly one line that is a valid JSON object, with every
other line not being JSON, and additionally no earlier line having trimmed
content starting with a brace, `invoke` resolves with that line's parsed
JSON object, no matter which position the JSON line occupies. -/
theorem C1_single_json_line (dataString errorString : String) (i : Nat)
    (hi : i < (splitLines dataString).length) (fs : JsonObj)
    (hobj : parseJson (jsTrim ((splitLines dataString).get ⟨i, hi⟩)) = .ok (.obj fs))
    (hothers : ∀ j (hj : j < (splitLines dataString).length), j ≠ i →
      (parseJson (jsTrim ((splitLines dataString).get ⟨j, hj⟩))).isOk = false)
    (hbefore : ∀ j (hj : j < i),
      isBraceLine ((splitLines dataString).get ⟨j, lt_trans hj hi⟩) = false) :
    (onClose 0 dataString errorString).1 = .resolved (.obj fs) := by
  have hbrace : isBraceLine ((splitLines dataString).get ⟨i, hi⟩) = true :=
    isBraceLine_of_parse_obj _ fs hobj
  have hscan : firstJsonLine dataString =
      jsTrim ((splitLines dataString).get ⟨i, hi⟩) :=
    scanJsonLine_first _ i hi hbefore hbrace
  have hne2 : jsTrim ((splitLines dataString).get ⟨i, hi⟩) ≠ "" :=
    startsWith_brace_ne_empty _ hbrace
  have hne : firstJsonLine dataString ≠ "" := by
    rw [hscan]
    exact hne2
  simp only [List.get_eq_getElem] at hobj hne2 hscan
  simp [onClose, hne, hscan, hobj, hne2]

/-- Witness for amended claim C1: the JSON line sits between two non-JSON
diagnostic lines and is still returned. -/
theorem C1_witness :
    ((parseJson (jsTrim "Loading...")).isOk = false) ∧
    ((parseJson (jsTrim "Done.")).isOk = false) ∧
    (onClose 0 "Loading...\n\x7b\"a\": 1\x7d\nDone." "").1 =
      .resolved (.obj (.cons "a" (.num 1 0) .nil)) := by
  refine ⟨by decide, by decide, ?_⟩
  refine C1_single_json_line "Loading...\n\x7b\"a\": 1\x7d\nDone." "" 1 (by decide) _
    (by decide) ?_ ?_
  · intro j hj hne
    have hj3 : j < 3 := by
      simpa using hj
    interval_cases j
    · show (parseJson (jsTrim "Loading...")).isOk = false
      decide
    · exact absurd rfl hne
    · show (parseJson (jsTrim "Done.")).isOk = false
      decide
  · intro j hj
    interval_cases j
    show isBraceLine "Loading..." = false
    decide



/-- Counterexample to claim C8 as stated: the scalar string value `{}`
written through the settings upsert is stored as the raw text `{}`, which
the read-back path parses as JSON, so it reads back as the empty object, not
as the string that was written. -/
theorem C8_cex :
    writeSetting (.str "\x7b\x7d") = "\x7b\x7d" ∧
    readSetting (writeSetting (.str "\x7b\x7d")) = .obj .nil ∧
    Json.obj .nil ≠ .str "\x7b\x7d" :=
  ⟨by decide, by decide, by decide⟩

/-- Claim C8 as amended: every value written through the settings upsert
that is an array, an object, or a string that does not both begin with a
bracket or brace and parse as JSON, reads back as the same logical value via
the get-all handler: arrays and objects are preserved structurally, and such
scalar strings are preserved as strings. -/
theorem C8_settings_roundtrip (v : Json)
    (hscope : (∃ xs, v = .arr xs) ∨ (∃ fs, v = .obj fs) ∨
      (∃ s, v = .str s ∧
        ((jsStartsWith s "[" = false ∧ jsStartsWith s "\x7b" = false) ∨
          (parseJson s).isOk = false))) :
    readSetting (writeSetting v) = v := by
  rcases hscope with ⟨xs, rfl⟩ | ⟨fs, rfl⟩ | ⟨s, rfl, hs⟩
  · show readSetting (Json.stringify (.arr xs)) = _
    unfold readSetting
    have hstart : jsStartsWith (Json.stringify (.arr xs)) "[" = true := by
      show chLeadsWith ['['] ('[' :: (JsonList.stringifyChars xs ++ [']'])) = true
      simp [chLeadsWith]
    rw [hstart]
    simp only [Bool.true_or, if_true]
    rw [parseJson_stringify (.arr xs)]
  · show readSetting (Json.stringify (.obj fs)) = _
    unfold readSetting
    have hstart : jsStartsWith (Json.stringify (.obj fs)) "\x7b" = true := by
      show chLeadsWith ['{'] ('{' :: (JsonObj.stringifyChars fs ++ ['}'])) = true
      simp [chLeadsWith]
    rw [hstart]
    simp only [Bool.or_true, if_true]
    rw [parseJson_stringify (.obj fs)]
  · show readSetting s = _
    unfold readSetting
    rcases hs with ⟨h1, h2⟩ | hfail
    · rw [h1, h2]
      rfl
    · rcases hor : (jsStartsWith s "[" || jsStartsWith s "\x7b") with _ | _
      · rfl
      · simp only [if_true]
        rcases hp : parseJson s with m | w
        · rfl
        · rw [hp] at hfail
          simp [Except.isOk, Except.toBool] at hfail

/-- Witness for amended claim C8 at a concrete array value. -/
theorem C8_witness :
    readSetting (writeSetting (.arr (.cons (.num 1 0) (.cons (.str "x") .nil)))) =
      .arr (.cons (.num 1 0) (.cons (.str "x") .nil)) :=
  C8_settings_roundtrip _ (Or.inl ⟨_, rfl⟩)



/-- The worker stdout of the spec's concrete scenario: three printed lines. -/
def scenarioStdout : String :=
  "Loading data...\n\x7b\"success\": true, \"project_data\": \x7b\"overall_completes\": 45, \"total_quota\": 100, \"completion_percentage\": 0.45\x7d, \"analysis\": \"On track.\"\x7d\nDone.\n"

/-- The project-data object of the scenario. -/
def scenarioProjectData : Json :=
  .obj (.cons "overall_completes" (.num 45 0) (.cons "total_quota" (.num 100 0)
    (.cons "completion_percentage" (.num 45 2) .nil)))

/-- The structured result the scenario worker emits. -/
def scenarioJson : Json :=
  .obj (.cons "success" (.bool true) (.cons "project_data" scenarioProjectData
    (.cons "analysis" (.str "On track.") .nil)))

/-- The exact rational value of a JSON number. -/
def jnumVal : Json → ℚ
  | .num m k => (m : ℚ) / 10 ^ k
  | _ => 0

theorem chLeadsWith_map_lower (a : List Char) : ∀ b : List Char,
    chLeadsWith a b = true →
    chLeadsWith (a.map Char.toLower) (b.map Char.toLower) = true := by
  induction a with
  | nil => intro b _; rfl
  | cons c cs ih =>
    intro b h
    cases b with
    | nil => simp [chLeadsWith] at h
    | cons d ds =>
      simp only [chLeadsWith, Bool.and_eq_true, decide_eq_true_eq] at h
      obtain ⟨h1, h2⟩ := h
      subst h1
      simp only [List.map_cons, chLeadsWith, Bool.and_eq_true, decide_eq_true_eq]
      exact ⟨trivial, ih ds h2⟩

theorem includesChars_map_lower (sub : List Char) : ∀ cs : List Char,
    includesChars sub cs = true →
    includesChars (sub.map Char.toLower) (cs.map Char.toLower) = true := by
  intro cs
  induction cs with
  | nil =>
    intro h
    simp only [includesChars] at h ⊢
    simpa using chLeadsWith_map_lower sub [] h
  | cons c cs ih =>
    intro h
    simp only [includesChars, Bool.or_eq_true] at h ⊢
    rcases h with h | h
    · exact Or.inl (by simpa using chLeadsWith_map_lower sub (c :: cs) h)
    · exact Or.inr (ih h)

theorem includesStr_lower (msg sub : String) (hsub : lowerStr sub = sub)
    (h : includesStr msg sub = true) : includesStr (lowerStr msg) sub = true := by
  have h2 := includesChars_map_lower sub.data msg.data h
  show includesChars sub.data (lowerStr msg).data = true
  have h3 : (lowerStr msg).data = msg.data.map Char.toLower := rfl
  have h4 : sub.data.map Char.toLower = sub.data := congrArg String.data hsub
  rw [h3, ← h4]
  exact h2



/-- The chat body computed on the scenario result for any message matching
the status branch. -/
theorem chatBody_scenario (msg : String)
    (hcond : (includesStr (lowerStr msg) "status" ||
      includesStr (lowerStr msg) "current") = true) :
    chatBody msg scenarioJson = .ok
      ⟨true,
        "Current recruitment status: 45 out of 100 participants completed (45.0% complete).",
        some scenarioProjectData⟩ := by
  simp only [chatBody,
    show jsGet (some scenarioJson) "success" = .ok (some (.bool true)) from by decide,
    show jsGet (some scenarioJson) "project_data"
      = .ok (some scenarioProjectData) from by decide,
    show jsGet (some scenarioProjectData) "overall_completes"
      = .ok (some (.num 45 0)) from by decide,
    show jsGet (some scenarioProjectData) "total_quota"
      = .ok (some (.num 100 0)) from by decide,
    show jsGet (some scenarioProjectData) "completion_percentage"
      = .ok (some (.num 45 2)) from by decide,
    show truthy (some (.bool true)) = true from rfl,
    except_bind_ok_eq, hcond, if_true]
  decide



/-- Claim C9: when the `generate_report` worker prints the line
`Loading data...`, then the structured-result line, then `Done.`, and exits
0, `invoke` resolves with a result whose `project_data.completion_percentage`
equals `0.45` (the exact value of the decimal literal); and a chat request
whose message contains `status` yields a success response whose text embeds
`45 out of 100` and `45.0%`. -/
theorem C9_chat_status_scenario (msg : String)
    (hmsg : includesStr msg "status" = true) :
    (invokeOutcome (.closed 0 scenarioStdout "")).1 = .resolved scenarioJson ∧
    jsGet (some scenarioJson) "project_data" = .ok (some scenarioProjectData) ∧
    jsGet (some scenarioProjectData) "completion_percentage"
      = .ok (some (.num 45 2)) ∧
    jnumVal (.num 45 2) = 45 / 100 ∧
    (chatHandler msg (.closed 0 scenarioStdout "")).success = true ∧
    includesStr (chatHandler msg (.closed 0 scenarioStdout "")).response
      "45 out of 100" = true ∧
    includesStr (chatHandler msg (.closed 0 scenarioStdout "")).response
      "45.0%" = true := by
  have h1 : (invokeOutcome (.closed 0 scenarioStdout "")).1
      = .resolved scenarioJson := by
    decide
  have hlow : includesStr (lowerStr msg) "status" = true :=
    includesStr_lower msg "status" (by decide) hmsg
  have hcond : (includesStr (lowerStr msg) "status" ||
      includesStr (lowerStr msg) "current") = true := by
    rw [hlow]
    rfl
  have hch : chatHandler msg (.closed 0 scenarioStdout "") =
      ⟨true,
        "Current recruitment status: 45 out of 100 participants completed (45.0% complete).",
        some scenarioProjectData⟩ := by
    simp only [chatHandler, h1, chatBody_scenario msg hcond]
  refine ⟨h1, by decide, by decide, by norm_num [jnumVal], ?_, ?_, ?_⟩ <;>
    rw [hch] <;> decide

/-- Witness for claim C9 at the message `what is the status?`. -/
theorem C9_witness :
    includesStr "what is the status?" "status" = true ∧
    (chatHandler "what is the status?" (.closed 0 scenarioStdout "")).response =
      "Current recruitment status: 45 out of 100 participants completed (45.0% complete)." := by
  refine ⟨by decide, ?_⟩
  have h := C9_chat_status_scenario "what is the status?" (by decide)
  have h2 := h.2.2.2.2.2.1
  revert h2
  decide


end Srv


